import Mathlib

/-!
Shallow embedding of `src/worker.js` (hianime-proxy), a Cloudflare-worker
HLS reverse proxy.  JavaScript primitives (string search, `parseInt`,
`TextDecoder`, `encodeURIComponent`, typed-array `slice`) are modelled on
`List Char` / `List Nat` following their ECMAScript / WHATWG definitions;
the worker's own functions are translated line by line from the source.
-/

/-! ## JavaScript string primitives -/

/-- JS `String.prototype.includes`: substring containment on char lists. -/
def listIncludes (hay sub : List Char) : Bool :=
  match hay with
  | [] => sub.isEmpty
  | _ :: t => sub.isPrefixOf hay || listIncludes t sub

/-- JS `str.includes(sub)`. -/
def jsIncludes (s sub : String) : Bool := listIncludes s.data sub.data

/-- JS `str.startsWith(p)`. -/
def jsStartsWith (s p : String) : Bool := p.data.isPrefixOf s.data

/-- JS `str.endsWith(p)` (used only to state the spec's "suffix" reading). -/
def jsEndsWith (s p : String) : Bool := p.data.isSuffixOf s.data

/-- JS whitespace (`StrWhiteSpaceChar`): space, tab, LF, VT, FF, CR, NBSP, BOM. -/
def jsIsWs (c : Char) : Bool :=
  c == ' ' || c == '\t' || c == '\n' || c == '\r' ||
  c == Char.ofNat 11 || c == Char.ofNat 12 || c == Char.ofNat 0xA0 || c == Char.ofNat 0xFEFF

/-- JS `str.trim()` on char lists. -/
def trimChars (l : List Char) : List Char :=
  ((l.dropWhile jsIsWs).reverse.dropWhile jsIsWs).reverse

/-- JS `str.trim()`. -/
def jsTrim (s : String) : String := ⟨trimChars s.data⟩

/-- JS `url.substring(0, url.lastIndexOf(c) + 1)` on char lists: keep
everything up to and including the last occurrence of `c` (empty if absent). -/
def takeToLast (c : Char) (l : List Char) : List Char :=
  (l.reverse.dropWhile (fun x => x ≠ c)).reverse

/-! ## UTF-8 (WHATWG decoder state machine, used by `TextDecoder` and
`decodeURIComponent`) -/

/-- UTF-8 encoding of a Unicode scalar value (1 to 4 bytes). -/
def utf8Bytes (n : Nat) : List Nat :=
  if n < 0x80 then [n]
  else if n < 0x800 then [0xC0 + n / 64, 0x80 + n % 64]
  else if n < 0x10000 then [0xE0 + n / 4096, 0x80 + n / 64 % 64, 0x80 + n % 64]
  else [0xF0 + n / 262144, 0x80 + n / 4096 % 64, 0x80 + n / 64 % 64, 0x80 + n % 64]

/-- State of the WHATWG UTF-8 decoder: pending codepoint bits, how many
continuation bytes are still needed / already seen, and the admissible
range for the next continuation byte. -/
structure U8 where
  cp : Nat
  bytesNeeded : Nat
  bytesSeen : Nat
  lower : Nat
  upper : Nat
deriving DecidableEq, Repr

/-- Initial UTF-8 decoder state. -/
def u8Init : U8 := ⟨0, 0, 0, 0x80, 0xBF⟩

/-- The replacement character U+FFFD emitted by the lossy decoder. -/
def replChar : Char := Char.ofNat 0xFFFD

/-- Handle one byte in the start state (bytesNeeded = 0), strict flavour:
`none` on an illegal leading byte.  Output chars are accumulated reversed. -/
def u8StartStrict (out : List Char) (b : Nat) : Option (List Char × U8) :=
  if b < 0x80 then some (Char.ofNat b :: out, u8Init)
  else if 0xC2 ≤ b ∧ b ≤ 0xDF then some (out, ⟨b % 32, 1, 0, 0x80, 0xBF⟩)
  else if 0xE0 ≤ b ∧ b ≤ 0xEF then
    some (out, ⟨b % 16, 2, 0, if b = 0xE0 then 0xA0 else 0x80, if b = 0xED then 0x9F else 0xBF⟩)
  else if 0xF0 ≤ b ∧ b ≤ 0xF4 then
    some (out, ⟨b % 8, 3, 0, if b = 0xF0 then 0x90 else 0x80, if b = 0xF4 then 0x8F else 0xBF⟩)
  else none

/-- One step of the strict WHATWG UTF-8 decoder. -/
def u8StepStrict (acc : Option (List Char × U8)) (b : Nat) : Option (List Char × U8) :=
  acc.bind fun p =>
    let out := p.1
    let st := p.2
    if st.bytesNeeded = 0 then u8StartStrict out b
    else if st.lower ≤ b ∧ b ≤ st.upper then
      let cp := st.cp * 64 + b % 64
      if st.bytesSeen + 1 = st.bytesNeeded then some (Char.ofNat cp :: out, u8Init)
      else some (out, ⟨cp, st.bytesNeeded, st.bytesSeen + 1, 0x80, 0xBF⟩)
    else none

/-- Strict UTF-8 decoding (fails on any malformed or truncated sequence),
as performed by `decodeURIComponent` on percent-decoded bytes. -/
def utf8DecodeStrict (l : List Nat) : Option (List Char) :=
  (l.foldl u8StepStrict (some ([], u8Init))).bind fun p =>
    if p.2.bytesNeeded = 0 then some p.1.reverse else none

/-- Handle one byte in the start state, lossy flavour: U+FFFD on error. -/
def u8StartLossy (out : List Char) (b : Nat) : List Char × U8 :=
  if b < 0x80 then (Char.ofNat b :: out, u8Init)
  else if 0xC2 ≤ b ∧ b ≤ 0xDF then (out, ⟨b % 32, 1, 0, 0x80, 0xBF⟩)
  else if 0xE0 ≤ b ∧ b ≤ 0xEF then
    (out, ⟨b % 16, 2, 0, if b = 0xE0 then 0xA0 else 0x80, if b = 0xED then 0x9F else 0xBF⟩)
  else if 0xF0 ≤ b ∧ b ≤ 0xF4 then
    (out, ⟨b % 8, 3, 0, if b = 0xF0 then 0x90 else 0x80, if b = 0xF4 then 0x8F else 0xBF⟩)
  else (replChar :: out, u8Init)

/-- One step of the lossy WHATWG UTF-8 decoder (replacement on error; an
invalid continuation byte is re-processed as a start byte). -/
def u8StepLossy (acc : List Char × U8) (b : Nat) : List Char × U8 :=
  let out := acc.1
  let st := acc.2
  if st.bytesNeeded = 0 then u8StartLossy out b
  else if st.lower ≤ b ∧ b ≤ st.upper then
    let cp := st.cp * 64 + b % 64
    if st.bytesSeen + 1 = st.bytesNeeded then (Char.ofNat cp :: out, u8Init)
    else (out, ⟨cp, st.bytesNeeded, st.bytesSeen + 1, 0x80, 0xBF⟩)
  else u8StartLossy (replChar :: out) b

/-- Lossy UTF-8 decoding, as performed by `new TextDecoder().decode(...)`
(worker.js line 24: the chunk-size line is decoded before parsing). -/
def decodeUTF8 (l : List Nat) : String :=
  let p := l.foldl u8StepLossy ([], u8Init)
  ⟨(if p.2.bytesNeeded = 0 then p.1 else replChar :: p.1).reverse⟩

/-! ## JS `parseInt(s, 16)` (ECMAScript §19.2.5) -/

/-- Hexadecimal digit test (0-9, a-f, A-F). -/
def isHexDigitChar (c : Char) : Bool :=
  decide ('0' ≤ c ∧ c ≤ '9') || decide ('a' ≤ c ∧ c ≤ 'f') || decide ('A' ≤ c ∧ c ≤ 'F')

/-- Value of one hexadecimal digit. -/
def hexCharVal (c : Char) : Nat :=
  if c.toNat ≤ 57 then c.toNat - 48 else if c.toNat ≤ 70 then c.toNat - 55 else c.toNat - 87

/-- Value of a string of hexadecimal digits (most significant first). -/
def hexListVal (l : List Char) : Nat :=
  l.foldl (fun a c => a * 16 + hexCharVal c) 0

/-- JS `parseInt(s, 16)`: skip whitespace, optional sign, optional `0x`
prefix, then the longest run of hex digits; `none` models `NaN`. -/
def parseIntHex (s : String) : Option Int :=
  let l := s.data.dropWhile jsIsWs
  let sl : Int × List Char :=
    match l with
    | c :: r => if c = '-' then (-1, r) else if c = '+' then (1, r) else (1, c :: r)
    | [] => (1, [])
  let l2 := if "0x".data.isPrefixOf sl.2 ∨ "0X".data.isPrefixOf sl.2 then sl.2.drop 2 else sl.2
  let digits := l2.takeWhile isHexDigitChar
  if digits.isEmpty then none else some (sl.1 * (hexListVal digits : Int))

/-! ## Typed-array `slice` (negative indices count from the end, clamped) -/

/-- JS `TypedArray.prototype.slice(b)` (one argument). -/
def jsSliceFrom (l : List Nat) (b : Int) : List Nat :=
  l.drop (if b < 0 then (l.length + b).toNat else b.toNat)

/-- JS `TypedArray.prototype.slice(0, e)`. -/
def jsSliceTo (l : List Nat) (e : Int) : List Nat :=
  l.take (if e < 0 then (l.length + e).toNat else e.toNat)

/-- JS `buffer.indexOf(13)`, as an `Option` (JS returns -1 when absent). -/
def idxOfCR : List Nat → Option Nat
  | [] => none
  | b :: t => if b = 13 then some 0 else (idxOfCR t).map (· + 1)

/-! ## DechunkingStream (worker.js lines 8-60) -/

/-- The `state` field of `DechunkingStream`: `'size'`, `'data'`, `'footer'`. -/
inductive DState | size | data | footer
deriving DecidableEq, Repr

/-- Mutable fields of a `DechunkingStream` instance: `this.buffer`,
`this.state`, `this.chunkSize` (an `Int`, since `parseInt` can yield
negative values; the `NaN` case errors before being stored). -/
structure DecSt where
  buffer : List Nat
  st : DState
  chunkSize : Int
deriving DecidableEq, Repr

/-- Result of one `transform(chunk, controller)` call: the buffers passed to
`controller.enqueue` in order, and either the updated instance state or the
`controller.error` message. -/
inductive TOut
  | ok (s : DecSt) (out : List (List Nat))
  | err (out : List (List Nat)) (msg : String)
deriving DecidableEq, Repr

/-- The `while (this.buffer.length > 0)` loop of `transform`.  `fuel` only
bounds the iteration count: every size/footer iteration consumes at least
one buffered byte and a data iteration immediately yields to a size
iteration, so at most `2 * buffer.length + 1` iterations can run and the
fuel `2 * buffer.length + 2` supplied by `transform` is never exhausted. -/
def dechunkLoop (fuel : Nat) (buf : List Nat) (st : DState) (cs : Int)
    (acc : List (List Nat)) : TOut :=
  match fuel with
  | 0 => .ok ⟨buf, st, cs⟩ acc
  | fuel + 1 =>
    if buf.length = 0 then .ok ⟨buf, st, cs⟩ acc
    else match st with
      | .size =>
        match idxOfCR buf with
        | none => .ok ⟨buf, st, cs⟩ acc
        | some i =>
          let sizeStr := decodeUTF8 (buf.take i)
          let buf' := buf.drop (i + 2)
          match parseIntHex sizeStr with
          | none => .err acc ("Invalid chunk size: " ++ sizeStr)
          | some n =>
            if n = 0 then dechunkLoop fuel buf' .footer n acc
            else dechunkLoop fuel buf' .data n acc
      | .data =>
        if (buf.length : Int) < cs then .ok ⟨buf, st, cs⟩ acc
        else dechunkLoop fuel (jsSliceFrom buf (cs + 2)) .size cs (acc ++ [jsSliceTo buf cs])
      | .footer =>
        match idxOfCR buf with
        | none => .ok ⟨buf, st, cs⟩ acc
        | some i => dechunkLoop fuel (if i = 0 then [] else buf.drop (i + 2)) .footer cs acc

/-- `DechunkingStream.transform(chunk, controller)`: merge the pending
buffer with the incoming bytes, then run the state machine. -/
def transform (s : DecSt) (input : List Nat) : TOut :=
  let buf := s.buffer ++ input
  dechunkLoop (2 * buf.length + 2) buf s.st s.chunkSize []

/-- A freshly constructed `DechunkingStream`. -/
def initDec : DecSt := ⟨[], .size, 0⟩

/-- ASCII bytes of a string literal (for concrete chunked-stream inputs). -/
def asciiBytes (s : String) : List Nat := s.data.map Char.toNat

/-! ## Percent encoding (`encodeURIComponent` / `decodeURIComponent`,
ECMAScript §19.2.6) -/

/-- The characters `encodeURIComponent` leaves unescaped:
`A-Z a-z 0-9 - _ . ! ~ * ' ( )`. -/
def isUriUnreserved (c : Char) : Bool :=
  decide ('A' ≤ c ∧ c ≤ 'Z') || decide ('a' ≤ c ∧ c ≤ 'z') || decide ('0' ≤ c ∧ c ≤ '9') ||
  c == '-' || c == '_' || c == '.' || c == '!' || c == '~' || c == '*' ||
  c == Char.ofNat 39 || c == '(' || c == ')'

/-- Upper-case hexadecimal digit for one nibble. -/
def hexDigitUpper (d : Nat) : Char := Char.ofNat (if d < 10 then 48 + d else 55 + d)

/-- Percent escape of one byte, `%XY`. -/
def escByte (b : Nat) : List Char := ['%', hexDigitUpper (b / 16), hexDigitUpper (b % 16)]

/-- `encodeURIComponent` on one character: unreserved characters pass,
everything else is escaped byte-by-byte in UTF-8. -/
def encChar (c : Char) : List Char :=
  if isUriUnreserved c then [c] else (utf8Bytes c.toNat).flatMap escByte

/-- JS `encodeURIComponent`. -/
def encodeURIComponent (s : String) : String := ⟨s.data.flatMap encChar⟩

/-- Percent-decoding to a byte sequence; `none` models the `URIError`
thrown on a malformed escape. A plain character contributes its UTF-8
bytes (it is re-assembled by the strict UTF-8 decode below). -/
def pctDecode : List Char → Option (List Nat)
  | [] => some []
  | c :: rest =>
    if c = '%' then
      match rest with
      | h1 :: h2 :: r =>
        if isHexDigitChar h1 && isHexDigitChar h2 then
          (pctDecode r).map fun bs => (hexCharVal h1 * 16 + hexCharVal h2) :: bs
        else none
      | _ => none
    else (pctDecode rest).map fun bs => utf8Bytes c.toNat ++ bs

/-- JS `decodeURIComponent`; `none` models a thrown `URIError`. -/
def decodeURIComponent (s : String) : Option String :=
  (pctDecode s.data).bind fun bs => (utf8DecodeStrict bs).map fun l => ⟨l⟩

/-! ## WHATWG `URL` (the fragment of `new URL(u)` the worker relies on) -/

/-- Parsed URL: scheme, host, port (`none` when absent or equal to the
scheme default, as in WHATWG where the default port is stripped), and the
verbatim remainder (path + query + fragment). -/
structure JsUrl where
  scheme : String
  host : String
  port : Option Nat
  tail : String
deriving DecidableEq, Repr

/-- Decimal value of a digit string. -/
def digitsVal (l : List Char) : Nat := l.foldl (fun a c => a * 10 + (c.toNat - 48)) 0

/-- Minimal model of `new URL(u)` for absolute http/https URLs (the only
scheme family the worker proxies).  `none` models a thrown `TypeError`. -/
def parseUrl (s : String) : Option JsUrl :=
  let sr : String × List Char :=
    if "https://".data.isPrefixOf s.data then ("https", s.data.drop 8)
    else if "http://".data.isPrefixOf s.data then ("http", s.data.drop 7)
    else ("", [])
  if sr.1 = "" then none
  else
    let auth := sr.2.takeWhile fun c => c != '/' && c != '?' && c != '#'
    let tail := sr.2.drop auth.length
    let host := auth.takeWhile fun c => c != ':'
    if host.isEmpty then none
    else if host.length = auth.length then some ⟨sr.1, ⟨host⟩, none, ⟨tail⟩⟩
    else
      let portPart := auth.drop (host.length + 1)
      if portPart.isEmpty then some ⟨sr.1, ⟨host⟩, none, ⟨tail⟩⟩
      else if portPart.all (fun c => decide ('0' ≤ c ∧ c ≤ '9')) then
        let p := digitsVal portPart
        if p < 65536 then
          some ⟨sr.1, ⟨host⟩, if (sr.1 = "https" ∧ p = 443) ∨ (sr.1 = "http" ∧ p = 80)
            then none else some p, ⟨tail⟩⟩
        else none
      else none

/-- Default port of a scheme. -/
def defaultPort (scheme : String) : Nat := if scheme = "https" then 443 else 80

/-- Effective port of a parsed URL. -/
def effectivePort (j : JsUrl) : Nat := j.port.getD (defaultPort j.scheme)

/-- `url.origin`: scheme, host, and the port when not the default. -/
def jsOrigin (j : JsUrl) : String :=
  j.scheme ++ "://" ++ j.host ++ (match j.port with | none => "" | some p => ":" ++ toString p)

/-! ## `Headers` (case-insensitive name lookup; `set` overwrites,
`delete` removes) -/

/-- A header mapping, as a list of name/value pairs. -/
abbrev HMap := List (String × String)

/-- ASCII-lowercase a header name (header comparison is case-insensitive). -/
def normHeader (k : String) : String := ⟨k.data.map Char.toLower⟩

/-- `headers.get(k)`. -/
def hget (m : HMap) (k : String) : Option String :=
  (m.find? fun p => normHeader p.1 == normHeader k).map (·.2)

/-- `headers.set(k, v)`. -/
def hset (m : HMap) (k v : String) : HMap :=
  (m.filter fun p => normHeader p.1 != normHeader k) ++ [(k, v)]

/-- `headers.delete(k)`. -/
def hdelete (m : HMap) (k : String) : HMap :=
  m.filter fun p => normHeader p.1 != normHeader k

/-! ## Transport selection (worker.js lines 216-230) -/

/-- The fixed CDN denylist (worker.js lines 221-229). -/
def cdnDenylist : List String :=
  ["haildrop", "douvid", "lightningspark", "sunburst", "sunshinerays",
   "rainveil", "fogtwist", "stormshade", "netmagcdn"]

/-- Lines 216-229: `url.includes(':2228') || targetUrl.hostname.includes('haildrop') || ...`. -/
def needsSocketFetch (url hostname : String) : Bool :=
  jsIncludes url ":2228" || cdnDenylist.any fun d => jsIncludes hostname d

/-- The transport the handler selects for the `url` query parameter:
`some true` = raw socket, `some false` = native fetch, `none` = the
`new URL(url)` call at line 173 throws (caught as a 500). -/
def selectTransport (url : String) : Option Bool :=
  (parseUrl url).map fun j => needsSocketFetch url j.host

/-! ## Referer selection (worker.js lines 170-190) -/

/-- Lowercase hex digit, for the video-id pattern. -/
def isLowerHexDigit (c : Char) : Bool :=
  decide ('0' ≤ c ∧ c ≤ '9') || decide ('a' ≤ c ∧ c ≤ 'f')

/-- Match of `/([a-f0-9]{64,})\//` anchored at the head of the list: a
slash, then a maximal run of at least 64 lowercase hex digits, then a
slash (the greedy run is exact: no shorter run can be followed by `/`). -/
def videoIdAt (l : List Char) : Option (List Char) :=
  match l with
  | [] => none
  | c :: rest =>
    if c = '/' then
      let run := rest.takeWhile isLowerHexDigit
      if 64 ≤ run.length ∧ (rest.drop run.length).head? = some '/' then some run else none
    else none

/-- Leftmost match of `urlPath.match(/\/([a-f0-9]{64,})\//)` (line 184). -/
def findVideoId : List Char → Option (List Char)
  | [] => none
  | c :: rest =>
    match videoIdAt (c :: rest) with
    | some r => some r
    | none => findVideoId rest

/-- Lines 172-190: pick the Referer for the upstream request.  `referer`
is the inbound `referer` query parameter (`none` when absent; the empty
string is falsy in `referer || '...'`). -/
def computeTargetReferer (urlHost urlPath : String) (referer : Option String) : String :=
  let t := match referer with
    | none => "https://megacloud.tv/"
    | some r => if r = "" then "https://megacloud.tv/" else r
  if urlHost = "cdn.dotstream.buzz" then "https://megaplay.buzz/"
  else if t = "https://megacloud.tv" ∨ t = "https://megacloud.tv/" then
    match findVideoId urlPath.data with
    | some id => "https://megacloud.tv/embed-2/e-1/" ++ ⟨id⟩
    | none => "https://megacloud.tv/embed-2/e-1/"
  else t

/-- Lines 194-213: the fixed browser-like upstream header map, plus the
conditionally forwarded `Range` and `X-Requested-With`. -/
def buildHeadersMap (targetReferer : String) (range xrw : Option String) : HMap :=
  let m : HMap :=
    [("User-Agent", "Mozilla/5.0 (Windows NT 10.0; Win64; x64) AppleWebKit/537.36 (KHTML, like Gecko) Chrome/131.0.0.0 Safari/537.36"),
     ("Accept", "*/*"),
     ("Accept-Language", "en-US,en;q=0.9"),
     ("Accept-Encoding", "identity"),
     ("Referer", targetReferer),
     ("Sec-Fetch-Dest", "empty"),
     ("Sec-Fetch-Mode", "cors"),
     ("Sec-Fetch-Site", "cross-site"),
     ("Sec-Ch-Ua", "\"Google Chrome\";v=\"131\", \"Chromium\";v=\"131\", \"Not_A Brand\";v=\"24\""),
     ("Sec-Ch-Ua-Mobile", "?0"),
     ("Sec-Ch-Ua-Platform", "\"Windows\"")]
  let m2 := match range with | some r => m ++ [("Range", r)] | none => m
  match xrw with | some x => m2 ++ [("X-Requested-With", x)] | none => m2

/-! ## Response pipeline (worker.js lines 253-317) -/

/-- Client-facing body variants: a fully buffered rewritten playlist, the
upstream body streamed through untouched, or a short error text. -/
inductive OutBody
  | rewritten (text : String)
  | stream
  | errorText (text : String)

/-- Whether the body was buffered and rewritten. -/
def isRewrittenBody : OutBody → Bool
  | .rewritten _ => true
  | _ => false

/-- A client-facing response. -/
structure OutResp where
  status : Nat
  headers : HMap
  body : OutBody

/-- Lines 253-255: copy the upstream headers, force the CORS wildcard,
set the version marker. -/
def baseRespHeaders (h : HMap) : HMap :=
  hset (hset h "Access-Control-Allow-Origin" "*") "X-Proxy-Version" "1.2.1-no-origin"

/-- Lines 264-265 (reached only on the success path): additionally strip
`Content-Security-Policy` and `X-Frame-Options`. -/
def strippedRespHeaders (h : HMap) : HMap :=
  hdelete (hdelete (baseRespHeaders h) "Content-Security-Policy") "X-Frame-Options"

/-- `new URL(url).origin` as used at line 280; the caller guarantees that
`url` parses, since line 173 already ran `new URL(url)` on the same string. -/
def jsOriginOfUrl (u : String) : String :=
  match parseUrl u with | some j => jsOrigin j | none => ""

/-- Line 273: `url.substring(0, url.lastIndexOf('/') + 1)`. -/
def basePathOf (url : String) : String := ⟨takeToLast '/' url.data⟩

/-- Lines 277-284 of `proxyLine`: resolve a manifest line to a full URL. -/
def resolveLine (url basePath line : String) : String :=
  if !(jsStartsWith line "http") then
    if jsStartsWith line "/" then jsOriginOfUrl url ++ line else basePath ++ line
  else line

/-- Line 285 of `proxyLine`: wrap the resolved URL into a proxied URL. -/
def proxyLine (url basePath workerUrl targetReferer line : String) : String :=
  workerUrl ++ "?url=" ++ encodeURIComponent (resolveLine url basePath line) ++
    "&referer=" ++ encodeURIComponent targetReferer

/-- A `"` or `'` character (the regex quote class). -/
def isQuote (c : Char) : Bool := c == '"' || c == Char.ofNat 39

/-- Match of `URI=["']([^"']+)["']` anchored at the head of the list,
returning the captured group and the remainder after the match.  The
greedy `+` run is exact: a shorter run would have to be followed by a
quote, but every character of the run is a non-quote. -/
def uriMatchAt (l : List Char) : Option (List Char × List Char) :=
  if "URI=".data.isPrefixOf l then
    match l.drop 4 with
    | q :: rest =>
      if isQuote q then
        let body := rest.takeWhile fun c => !(isQuote c)
        if body.isEmpty then none
        else match rest.drop body.length with
          | q2 :: rest2 => if isQuote q2 then some (body, rest2) else none
          | [] => none
      else none
    | [] => none
  else none

/-- Line 293: `trimmedLine.replace(/URI=["']([^"']+)["']/, ...)` — replace
the leftmost match (the regex is not global) with `URI="<f uri>"`. -/
def replaceURIAttr (f : String → String) : List Char → List Char
  | [] => []
  | c :: rest =>
    match uriMatchAt (c :: rest) with
    | some pr => ("URI=\"".data ++ (f ⟨pr.1⟩).data ++ ['"']) ++ pr.2
    | none => c :: replaceURIAttr f rest

/-- Lines 288-300: rewrite a buffered manifest line by line. -/
def rewriteManifest (manifestText url workerUrl targetReferer : String) : String :=
  let basePath := basePathOf url
  let pl := fun line => proxyLine url basePath workerUrl targetReferer line
  let newLines := (manifestText.splitOn "\n").map fun line =>
    let t := jsTrim line
    if t = "" then line
    else if jsStartsWith t "#" then ⟨replaceURIAttr pl t.data⟩
    else pl t
  String.intercalate "\n" newLines

/-- Lines 253-310: assemble the client-facing response from the selected
transport's `(status, ok, headers)` and (for the playlist branch) the
fully buffered body text. -/
def handleUpstream (url workerUrl targetReferer : String) (status : Nat) (ok : Bool)
    (upstreamHeaders : HMap) (bodyText : String) : OutResp :=
  let rh := baseRespHeaders upstreamHeaders
  if !ok && status ≠ 206 then
    ⟨status, rh, .errorText ("Upstream error " ++ toString status)⟩
  else
    let rh2 := hdelete (hdelete rh "Content-Security-Policy") "X-Frame-Options"
    let ct := (hget rh2 "content-type").getD ""
    if jsIncludes ct "mpegurl" || jsIncludes url ".m3u8" then
      ⟨status, rh2, .rewritten (rewriteManifest bodyText url workerUrl targetReferer)⟩
    else
      ⟨status, rh2, .stream⟩

/-- Lines 163-168: the 400 validation-error response (missing `url`). -/
def badRequestResp : OutResp :=
  ⟨400, [("Access-Control-Allow-Origin", "*")], .errorText "URL parameter is required"⟩

/-- Lines 312-317: headers of the 500 internal-error response. -/
def internalErrorHeaders : HMap :=
  [("Content-Type", "application/json"), ("Access-Control-Allow-Origin", "*")]

/-! ## Observation apparatus used by the claims (not part of the source):
query-parameter extraction and the spec's notions of "absolute URI" and
"suffix". -/

/-- Everything after the first `?`. -/
def afterQMark : List Char → Option (List Char)
  | [] => none
  | c :: r => if c = '?' then some r else afterQMark r

/-- Value of the first `url=` query-string segment (`&`-separated). -/
def findUrlVal (q : List Char) : Option (List Char) :=
  let seg := q.takeWhile fun c => c != '&'
  if "url=".data.isPrefixOf seg then some (seg.drop 4)
  else
    match h : q.dropWhile (fun c => c != '&') with
    | [] => none
    | _ :: r => findUrlVal r
termination_by q.length
decreasing_by
  have h1 := (List.dropWhile_sublist (l := q) (fun c => c != '&')).length_le
  rw [h] at h1
  simp at h1
  omega

/-- Raw (still percent-encoded) value of the `url` query parameter. -/
def getUrlParam (s : String) : Option String :=
  (afterQMark s.data).bind fun q => (findUrlVal q).map fun v => ⟨v⟩

/-- The spec's notion of an already-absolute URI, for a web playlist:
a full http or https URL. -/
def specAbsoluteUri (line : String) : Bool :=
  jsStartsWith line "http://" || jsStartsWith line "https://"

/-! ## Helper lemmas -/

/-- `find?` ignores `filter` by a predicate implied by the search predicate. -/
theorem find?_filter_eq {α : Type} (m : List α) (p q : α → Bool)
    (h : ∀ x, p x = true → q x = true) : (m.filter q).find? p = m.find? p := by
  induction m with
  | nil => rfl
  | cons a t ih =>
    by_cases hq : q a = true
    · cases hp : p a <;>
        simp [List.filter_cons, hq, List.find?_cons, hp, ih]
    · have hp : p a = false := by
        cases hpa : p a
        · rfl
        · exact absurd (h a hpa) hq
      simp [List.filter_cons, hq, List.find?_cons, hp, ih]

/-- `headers.get` after `headers.set`. -/
theorem hget_hset (m : HMap) (k v k' : String) :
    hget (hset m k v) k' = if normHeader k' = normHeader k then some v else hget m k' := by
  unfold hget hset
  rw [List.find?_append]
  by_cases h : normHeader k' = normHeader k
  · rw [if_pos h]
    have h1 : (List.filter (fun p => normHeader p.1 != normHeader k) m).find?
        (fun p => normHeader p.1 == normHeader k') = none := by
      rw [List.find?_eq_none]
      intro x hx
      have h2 := (List.mem_filter.mp hx).2
      simp only [bne_iff_ne, ne_eq] at h2
      simp only [beq_iff_eq, h]
      exact h2
    rw [h1, Option.none_or]
    have hbeq : (normHeader k == normHeader k') = true := by simp [h]
    simp [List.find?_cons, hbeq]
  · rw [if_neg h]
    have h1 : List.find? (fun p => normHeader p.1 == normHeader k') [(k, v)] = none := by
      have hbeq : (normHeader k == normHeader k') = false := by
        simp only [beq_eq_false_iff_ne, ne_eq]
        exact fun hE => h hE.symm
      simp [List.find?_cons, hbeq]
    rw [h1, Option.or_none]
    have h2 : ∀ x : String × String,
        (normHeader x.1 == normHeader k') = true → (normHeader x.1 != normHeader k) = true := by
      intro x hx
      simp only [beq_iff_eq] at hx
      simp only [bne_iff_ne, ne_eq, hx]
      exact fun hE => h hE
    rw [find?_filter_eq m _ _ h2]

/-- `headers.get` after `headers.delete`. -/
theorem hget_hdelete (m : HMap) (k k' : String) :
    hget (hdelete m k) k' = if normHeader k' = normHeader k then none else hget m k' := by
  unfold hget hdelete
  by_cases h : normHeader k' = normHeader k
  · rw [if_pos h]
    have h1 : (List.filter (fun p => normHeader p.1 != normHeader k) m).find?
        (fun p => normHeader p.1 == normHeader k') = none := by
      rw [List.find?_eq_none]
      intro x hx
      have h2 := (List.mem_filter.mp hx).2
      simp only [bne_iff_ne, ne_eq] at h2
      simp only [beq_iff_eq, h]
      exact h2
    rw [h1]
    rfl
  · rw [if_neg h]
    have h2 : ∀ x : String × String,
        (normHeader x.1 == normHeader k') = true → (normHeader x.1 != normHeader k) = true := by
      intro x hx
      simp only [beq_iff_eq] at hx
      simp only [bne_iff_ne, ne_eq, hx]
      exact fun hE => h hE
    rw [find?_filter_eq m _ _ h2]

/-- The dechunking loop on an empty buffer returns immediately. -/
theorem dechunkLoop_nil (fuel : Nat) (st : DState) (cs : Int) (acc : List (List Nat)) :
    dechunkLoop fuel [] st cs acc = .ok ⟨[], st, cs⟩ acc := by
  cases fuel <;> simp [dechunkLoop]

/-- In the footer state the loop never emits and never leaves the footer
state, whatever the fuel. -/
theorem dechunkLoop_footer (fuel : Nat) :
    ∀ (buf : List Nat) (cs : Int) (acc : List (List Nat)),
      ∃ buf', dechunkLoop fuel buf .footer cs acc = .ok ⟨buf', .footer, cs⟩ acc := by
  induction fuel with
  | zero => exact fun buf cs acc => ⟨buf, rfl⟩
  | succ n ih =>
    intro buf cs acc
    by_cases h : buf.length = 0
    · exact ⟨buf, by simp [dechunkLoop, h]⟩
    · cases hidx : idxOfCR buf with
      | none => exact ⟨buf, by simp [dechunkLoop, h, hidx]⟩
      | some i =>
        obtain ⟨buf', hb⟩ := ih (if i = 0 then [] else buf.drop (i + 2)) cs acc
        refine ⟨buf', ?_⟩
        simp only [dechunkLoop, h, if_false, hidx]
        exact hb

/-- A transform call in the footer state emits nothing and stays in the
footer state. -/
theorem transform_footer (s : DecSt) (input : List Nat) (hst : s.st = .footer) :
    ∃ s', transform s input = .ok s' [] ∧ s'.st = .footer := by
  obtain ⟨buf', hb⟩ :=
    dechunkLoop_footer (2 * (s.buffer ++ input).length + 2) (s.buffer ++ input) s.chunkSize []
  refine ⟨⟨buf', .footer, s.chunkSize⟩, ?_, rfl⟩
  unfold transform
  rw [hst]
  exact hb

/-- Processing `0\r\n\r\n` followed by anything: parse the zero size, enter
the footer state, hit the empty trailer line, clear the buffer, stop. -/
theorem dechunk_zero_chunk (fuel : Nat) (extra : List Nat) :
    dechunkLoop (fuel + 2) (48 :: 13 :: 10 :: 13 :: 10 :: extra) .size 0 [] =
      .ok ⟨[], .footer, 0⟩ [] := by
  have h1 : idxOfCR (48 :: 13 :: 10 :: 13 :: 10 :: extra) = some 1 := by
    simp [idxOfCR]
  have h2 : parseIntHex (decodeUTF8 ((48 :: 13 :: 10 :: 13 :: 10 :: extra).take 1)) =
      some 0 := by
    have ht : (48 :: 13 :: 10 :: 13 :: 10 :: extra).take 1 = [48] := rfl
    rw [ht]
    decide
  simp only [dechunkLoop, List.length_cons, h1, h2]
  norm_num
  have h3 : idxOfCR (13 :: 10 :: extra) = some 0 := by simp [idxOfCR]
  simp only [dechunkLoop, List.length_cons, h3]
  norm_num
  exact dechunkLoop_nil _ _ _ _

/-! ## Claim C1 -/

/-- C1 (code bug): fragmentation-invariance fails.  Fed in one piece, the
stream `3\r\nabc\r\n3\r\ndef\r\n0\r\n\r\n` decodes to the payloads `abc`,
`def`.  Split exactly after the first payload, the first call emits `abc`
but consumes the not-yet-arrived CRLF (line 41 slices `chunkSize + 2`
although line 38 only waited for `chunkSize` bytes), so the second call
reads an empty size line and errors: the concatenated output `abc` is not
the payload concatenation `abcdef`. -/
theorem c1_fragmentation_broken :
    (transform initDec (asciiBytes "3\r\nabc\r\n3\r\ndef\r\n0\r\n\r\n") =
      .ok ⟨[], .footer, 0⟩ [asciiBytes "abc", asciiBytes "def"]) ∧
    (transform initDec (asciiBytes "3\r\nabc") = .ok ⟨[], .size, 3⟩ [asciiBytes "abc"]) ∧
    (transform ⟨[], .size, 3⟩ (asciiBytes "\r\n3\r\ndef\r\n0\r\n\r\n") =
      .err [] "Invalid chunk size: ") := by
  refine ⟨by decide, by decide, by decide⟩

/-! ## Claim C3 -/

/-- C3 (code bug): in the DATA state the decoder does not wait for
`chunkSize + 2` buffered bytes.  With `chunkSize = 3` it emits `abc` as
soon as 3 (or 4) bytes are buffered — the spec says wait for 5 — and
destroys the CRLF bookkeeping by slicing 5 bytes from a shorter buffer.
Only the third conjunct (a full `payload + CRLF` buffer) behaves as the
claim describes. -/
theorem c3_data_wait_broken :
    (transform ⟨[], .data, 3⟩ (asciiBytes "abc") = .ok ⟨[], .size, 3⟩ [asciiBytes "abc"]) ∧
    (transform ⟨[], .data, 3⟩ (asciiBytes "abc\r") = .ok ⟨[], .size, 3⟩ [asciiBytes "abc"]) ∧
    (transform ⟨[], .data, 3⟩ (asciiBytes "abc\r\n") = .ok ⟨[], .size, 3⟩ [asciiBytes "abc"]) := by
  refine ⟨by decide, by decide, by decide⟩

/-! ## Claim C6 -/

/-- C6: whenever the decoder is in the SIZE state and the text of the
chunk-size line (the bytes before the first CR of the merged buffer) does
not parse as hexadecimal, `transform` signals the decode error and emits
nothing in that call; the `.err` result terminates the stream, so nothing
is emitted afterwards either. -/
theorem c6_invalid_size_errors (s : DecSt) (input : List Nat) (i : Nat)
    (hst : s.st = .size)
    (hidx : idxOfCR (s.buffer ++ input) = some i)
    (hparse : parseIntHex (decodeUTF8 ((s.buffer ++ input).take i)) = none) :
    transform s input =
      .err [] ("Invalid chunk size: " ++ decodeUTF8 ((s.buffer ++ input).take i)) := by
  have hne : ¬((s.buffer ++ input).length = 0) := by
    cases hbuf : s.buffer ++ input with
    | nil => rw [hbuf] at hidx; simp [idxOfCR] at hidx
    | cons a t => simp [hbuf]
  unfold transform
  rw [hst]
  simp only [dechunkLoop, hne, if_false, hidx, hparse]

/-- Witness for C6: the chunk-size text `zz` (input `zz\r\nrest`) raises
`Invalid chunk size: zz` with no emission. -/
theorem c6_witness :
    transform initDec (asciiBytes "zz\r\nrest") = .err [] "Invalid chunk size: zz" := by
  have h := c6_invalid_size_errors initDec (asciiBytes "zz\r\nrest") 2 rfl (by decide) (by decide)
  rw [h]
  decide

/-! ## Claim C7 -/

/-- C7: a zero-size chunk followed by the empty trailer line is terminal.
First conjunct: `0\r\n\r\n` plus any further bytes in the same call yields
no emission and leaves the decoder in the footer state with an empty
buffer.  Second conjunct: from any footer state, any later call emits
nothing and stays in the footer state. -/
theorem c7_zero_chunk_terminal :
    (∀ extra : List Nat, transform initDec (asciiBytes "0\r\n\r\n" ++ extra) =
      .ok ⟨[], .footer, 0⟩ []) ∧
    (∀ (s : DecSt) (input : List Nat), s.st = .footer →
      ∃ s', transform s input = .ok s' [] ∧ s'.st = .footer) := by
  constructor
  · intro extra
    have hb : initDec.buffer ++ (asciiBytes "0\r\n\r\n" ++ extra) =
        48 :: 13 :: 10 :: 13 :: 10 :: extra := rfl
    unfold transform
    rw [hb]
    exact dechunk_zero_chunk _ extra
  · exact transform_footer

/-- Witness for C7: instantiating the footer-absorption conjunct at a
concrete footer state and input. -/
theorem c7_witness :
    transform initDec (asciiBytes "0\r\n\r\n" ++ asciiBytes "XY") = .ok ⟨[], .footer, 0⟩ [] ∧
    ∃ s', transform ⟨[7, 8], .footer, 0⟩ (asciiBytes "more") = .ok s' [] ∧ s'.st = .footer :=
  ⟨c7_zero_chunk_terminal.1 (asciiBytes "XY"),
   c7_zero_chunk_terminal.2 ⟨[7, 8], .footer, 0⟩ (asciiBytes "more") rfl⟩

/-! ## Claim C10 -/

/-- C10: when the `url` parameter's hostname is `cdn.dotstream.buzz`,
the computed referer is `https://megaplay.buzz/` whatever `referer`
parameter the client supplied (line 176 overrides it before the
`referer ||`-default is ever consulted), and that value is what the
upstream header map carries as `Referer`. -/
theorem c10_dotstream_referer (referer : Option String) (urlPath : String)
    (range xrw : Option String) :
    computeTargetReferer "cdn.dotstream.buzz" urlPath referer = "https://megaplay.buzz/" ∧
    hget (buildHeadersMap (computeTargetReferer "cdn.dotstream.buzz" urlPath referer) range xrw)
      "Referer" = some "https://megaplay.buzz/" := by
  constructor
  · rfl
  · cases range <;> cases xrw <;> rfl

/-! ## Claim C2 -/

/-- C2 counterexample: the claim fails on the code.  The 400
validation-error response and the 500 internal-error response carry no
`X-Proxy-Version` header (lines 163-168 and 312-317 build fresh header
maps with only the CORS wildcard), and an upstream-status-error response
retains an upstream `content-security-policy` header, because the deletes
at lines 264-265 run only after the early return at lines 257-262. -/
theorem c2_counterexample :
    hget badRequestResp.headers "x-proxy-version" = none ∧
    hget internalErrorHeaders "x-proxy-version" = none ∧
    (handleUpstream "https://a.example/x" "https://w.example/p" "r" 404 false
        [("content-security-policy", "default-src a")] "").headers =
      baseRespHeaders [("content-security-policy", "default-src a")] ∧
    hget ((handleUpstream "https://a.example/x" "https://w.example/p" "r" 404 false
        [("content-security-policy", "default-src a")] "").headers)
      "content-security-policy" = some "default-src a" := by
  refine ⟨by decide, by decide, by decide, by decide⟩

/-- C2 amended: success responses carry the CORS wildcard and the version
marker and have `content-security-policy` / `x-frame-options` stripped;
upstream-status-error responses carry the wildcard and the marker but keep
any upstream `content-security-policy` / `x-frame-options`; the 400 and
500 responses carry only the CORS wildcard (no version marker). -/
theorem c2_amended (h : HMap) :
    hget (strippedRespHeaders h) "access-control-allow-origin" = some "*" ∧
    hget (strippedRespHeaders h) "x-proxy-version" = some "1.2.1-no-origin" ∧
    hget (strippedRespHeaders h) "content-security-policy" = none ∧
    hget (strippedRespHeaders h) "x-frame-options" = none ∧
    hget (baseRespHeaders h) "access-control-allow-origin" = some "*" ∧
    hget (baseRespHeaders h) "x-proxy-version" = some "1.2.1-no-origin" ∧
    hget (baseRespHeaders h) "content-security-policy" = hget h "content-security-policy" ∧
    hget (baseRespHeaders h) "x-frame-options" = hget h "x-frame-options" ∧
    hget badRequestResp.headers "access-control-allow-origin" = some "*" ∧
    hget badRequestResp.headers "x-proxy-version" = none ∧
    hget internalErrorHeaders "access-control-allow-origin" = some "*" ∧
    hget internalErrorHeaders "x-proxy-version" = none := by
  unfold strippedRespHeaders baseRespHeaders
  simp only [hget_hdelete, hget_hset]
  simp +decide

/-! ## Claim C4 -/

/-- C4 counterexample: the claim's "ends with the suffix `.m3u8`" fails on
the code, which tests `url.includes('.m3u8')` (line 270).  For the segment
URL `https://cdn.example/live.m3u8/seg-1.ts` (content-type `video/mp2t`,
status 200) neither disjunct of the claim's condition holds — the
content-type has no `mpegurl` and the URL does not end in `.m3u8` — yet
the code fully buffers and rewrites the body. -/
theorem c4_counterexample :
    isRewrittenBody (handleUpstream "https://cdn.example/live.m3u8/seg-1.ts"
      "https://w.example/p" "r" 200 true [("content-type", "video/mp2t")] "").body = true ∧
    jsIncludes "video/mp2t" "mpegurl" = false ∧
    jsEndsWith "https://cdn.example/live.m3u8/seg-1.ts" ".m3u8" = false := by
  refine ⟨rfl, by decide, by decide⟩

/-- C4 amended: for every response passing the success gate (`ok` or
status 206), the body is buffered and rewritten iff the content-type
contains `mpegurl` or the request URL contains the substring `.m3u8`
(not: ends with it); otherwise the body is streamed through unmodified,
and in all cases the upstream status is preserved. -/
theorem c4_amended (url workerUrl ref body : String) (status : Nat) (ok : Bool) (h : HMap)
    (hok : ok = true ∨ status = 206) :
    ((handleUpstream url workerUrl ref status ok h body).status = status) ∧
    (isRewrittenBody (handleUpstream url workerUrl ref status ok h body).body =
      (jsIncludes ((hget (strippedRespHeaders h) "content-type").getD "") "mpegurl" ||
        jsIncludes url ".m3u8")) ∧
    ((jsIncludes ((hget (strippedRespHeaders h) "content-type").getD "") "mpegurl" ||
        jsIncludes url ".m3u8") = false →
      (handleUpstream url workerUrl ref status ok h body).body = .stream) := by
  have hgate : (!ok && decide (status ≠ 206)) = false := by
    rcases hok with hok | hok <;> simp [hok]
  unfold handleUpstream strippedRespHeaders
  rw [hgate]
  simp only [Bool.false_eq_true, if_false]
  by_cases hc : (jsIncludes ((hget (hdelete (hdelete (baseRespHeaders h)
      "Content-Security-Policy") "X-Frame-Options") "content-type").getD "") "mpegurl" ||
      jsIncludes url ".m3u8") = true
  · rw [hc]
    simp [hc, isRewrittenBody]
  · have hc' := Bool.not_eq_true _ |>.mp hc
    rw [hc']
    simp [hc', isRewrittenBody]

/-- Witness for C4 amended, at a playlist URL with empty headers. -/
theorem c4_witness :
    isRewrittenBody (handleUpstream "https://x.example/v.m3u8" "https://w.example/p" "r"
      200 true [] "").body =
      (jsIncludes ((hget (strippedRespHeaders []) "content-type").getD "") "mpegurl" ||
        jsIncludes "https://x.example/v.m3u8" ".m3u8") :=
  (c4_amended "https://x.example/v.m3u8" "https://w.example/p" "r" "" 200 true []
    (Or.inl rfl)).2.1

/-! ## Claim C5 -/

/-- C5 counterexample: transport selection does not test the parsed port.
First input: `https://example.com/a:2228` has effective port 443 and a
hostname matching no denylist entry, yet the raw socket is selected
because the URL string contains `:2228` in its path (line 216 tests
`url.includes(':2228')`).  Second input: `https://video.example:02228/seg.ts`
parses to port 2228, yet the native client is selected because the string
`:2228` does not occur in `...:02228...`. -/
theorem c5_counterexample :
    (selectTransport "https://example.com/a:2228" = some true ∧
     parseUrl "https://example.com/a:2228" =
       some ⟨"https", "example.com", none, "/a:2228"⟩ ∧
     effectivePort ⟨"https", "example.com", none, "/a:2228"⟩ = 443 ∧
     (cdnDenylist.any fun d => jsIncludes "example.com" d) = false) ∧
    (selectTransport "https://video.example:02228/seg.ts" = some false ∧
     parseUrl "https://video.example:02228/seg.ts" =
       some ⟨"https", "video.example", some 2228, "/seg.ts"⟩) := by
  refine ⟨⟨by decide, by decide, by decide, by decide⟩, ⟨by decide, by decide⟩⟩

/-- C5 amended: for every target URL accepted by the URL parser, the raw
socket transport is selected iff the URL string contains the substring
`:2228` anywhere, or the parsed hostname contains one of the nine denylist
names as a substring; the parsed port plays no role. -/
theorem c5_amended (u : String) (j : JsUrl) (hp : parseUrl u = some j) :
    selectTransport u =
      some (jsIncludes u ":2228" || cdnDenylist.any fun d => jsIncludes j.host d) := by
  unfold selectTransport needsSocketFetch
  rw [hp]
  rfl

/-- Witness for C5 amended, at a denylisted host. -/
theorem c5_witness :
    selectTransport "https://cdn.haildrop77.net/v.ts" =
      some (jsIncludes "https://cdn.haildrop77.net/v.ts" ":2228" ||
        cdnDenylist.any fun d => jsIncludes "cdn.haildrop77.net" d) :=
  c5_amended "https://cdn.haildrop77.net/v.ts"
    ⟨"https", "cdn.haildrop77.net", none, "/v.ts"⟩ (by decide)

/-! ## Claim C8 -/

/-- C8 counterexample: the code treats any line starting with `http` as
absolute (line 278).  The relative segment name `httpd.ts` is not an
absolute URI and does not start with `/`, so by the claim it should
resolve to base + `httpd.ts`; the code leaves it untouched. -/
theorem c8_counterexample :
    resolveLine "https://cdn.example/show/index.m3u8"
      (basePathOf "https://cdn.example/show/index.m3u8") "httpd.ts" = "httpd.ts" ∧
    specAbsoluteUri "httpd.ts" = false ∧
    jsStartsWith "httpd.ts" "/" = false ∧
    "httpd.ts" ≠ basePathOf "https://cdn.example/show/index.m3u8" ++ "httpd.ts" := by
  refine ⟨by decide, by decide, by decide, by decide⟩

/-- C8 amended: a line starting with `http` (rather than: an absolute URI)
is used as-is; otherwise a line starting with `/` resolves against
`new URL(url).origin`, and any other line resolves against the request URL
truncated after its last `/`.  The spec's two concrete examples hold. -/
theorem c8_amended (url line : String) :
    (jsStartsWith line "http" = true → resolveLine url (basePathOf url) line = line) ∧
    (jsStartsWith line "http" = false → jsStartsWith line "/" = true →
      resolveLine url (basePathOf url) line = jsOriginOfUrl url ++ line) ∧
    (jsStartsWith line "http" = false → jsStartsWith line "/" = false →
      resolveLine url (basePathOf url) line = basePathOf url ++ line) ∧
    resolveLine "https://cdn.example/show/index.m3u8"
      (basePathOf "https://cdn.example/show/index.m3u8") "/seg/1.ts" =
      "https://cdn.example/seg/1.ts" ∧
    resolveLine "https://cdn.example/show/index.m3u8"
      (basePathOf "https://cdn.example/show/index.m3u8") "1.ts" =
      "https://cdn.example/show/1.ts" := by
  refine ⟨?_, ?_, ?_, by decide, by decide⟩
  · intro h1
    simp [resolveLine, h1]
  · intro h1 h2
    simp [resolveLine, h1, h2]
  · intro h1 h2
    simp [resolveLine, h1, h2]

/-- Witness for C8 amended: the plain-relative case at `1.ts`. -/
theorem c8_witness :
    resolveLine "https://cdn.example/show/index.m3u8"
      (basePathOf "https://cdn.example/show/index.m3u8") "1.ts" =
      basePathOf "https://cdn.example/show/index.m3u8" ++ "1.ts" :=
  (c8_amended "https://cdn.example/show/index.m3u8" "1.ts").2.2.1 (by decide) (by decide)

/-! ## Round-trip lemmas for C9 -/

/-- Every scalar value is below 0x110000. -/
theorem charToNatLt (c : Char) : c.toNat < 0x110000 := by
  have h := c.valid
  rcases h with h | h
  · exact Nat.lt_trans h (by norm_num)
  · exact h.2

/-- Validity of a scalar value, in `Nat` form. -/
theorem charToNatValid (c : Char) : c.toNat < 0xD800 ∨ (0xDFFF < c.toNat ∧ c.toNat < 0x110000) :=
  c.valid

/-- UTF-8 bytes of a scalar value are bytes. -/
theorem utf8Bytes_lt_256 (n : Nat) (hn : n < 0x110000) : ∀ b ∈ utf8Bytes n, b < 256 := by
  intro b hb
  unfold utf8Bytes at hb
  split_ifs at hb with h1 h2 h3 <;>
    simp only [List.mem_cons, List.not_mem_nil, or_false] at hb <;> omega

/-- A nibble's upper-case hex digit is a hex digit. -/
theorem hexDigitUpper_isHex : ∀ d < 16, isHexDigitChar (hexDigitUpper d) = true := by decide

/-- A nibble's upper-case hex digit decodes to the nibble. -/
theorem hexDigitUpper_val : ∀ d < 16, hexCharVal (hexDigitUpper d) = d := by decide

/-- Percent-decoding the escape triples of a byte list prepends the bytes. -/
theorem pct_escBytes (bs : List Nat) (rest : List Char) (h : ∀ b ∈ bs, b < 256) :
    pctDecode (bs.flatMap escByte ++ rest) = (pctDecode rest).map fun l => bs ++ l := by
  induction bs with
  | nil =>
    simp only [List.flatMap_nil, List.nil_append]
    cases pctDecode rest <;> rfl
  | cons b t ih =>
    have hb : b < 256 := h b (List.mem_cons_self b t)
    have ht := ih fun x hx => h x (List.mem_cons_of_mem _ hx)
    have hhex1 := hexDigitUpper_isHex (b / 16) (by omega)
    have hhex2 := hexDigitUpper_isHex (b % 16) (by omega)
    have hval1 := hexDigitUpper_val (b / 16) (by omega)
    have hval2 := hexDigitUpper_val (b % 16) (by omega)
    show pctDecode ('%' :: hexDigitUpper (b / 16) :: hexDigitUpper (b % 16) ::
      (t.flatMap escByte ++ rest)) = _
    rw [show pctDecode ('%' :: hexDigitUpper (b / 16) :: hexDigitUpper (b % 16) ::
        (t.flatMap escByte ++ rest)) =
      if isHexDigitChar (hexDigitUpper (b / 16)) && isHexDigitChar (hexDigitUpper (b % 16)) then
        (pctDecode (t.flatMap escByte ++ rest)).map fun bs =>
          (hexCharVal (hexDigitUpper (b / 16)) * 16 + hexCharVal (hexDigitUpper (b % 16))) :: bs
      else none from by simp [pctDecode]]
    rw [hhex1, hhex2, hval1, hval2, ht]
    have hbb : b / 16 * 16 + b % 16 = b := by omega
    rw [hbb]
    cases pctDecode rest <;> simp

/-- Percent-decoding an encoded character prepends its UTF-8 bytes. -/
theorem pct_encChar (c : Char) (rest : List Char) :
    pctDecode (encChar c ++ rest) = (pctDecode rest).map fun l => utf8Bytes c.toNat ++ l := by
  unfold encChar
  by_cases h : isUriUnreserved c = true
  · rw [if_pos h]
    have hne : ¬(c = '%') := by
      intro he
      rw [he] at h
      exact absurd h (by decide)
    simp only [List.singleton_append]
    rw [pctDecode.eq_def]
    simp [hne]
  · rw [if_neg h]
    exact pct_escBytes _ rest (utf8Bytes_lt_256 _ (charToNatLt c))

/-- Percent-decoding an entire encoded string yields its UTF-8 bytes. -/
theorem pct_encode_list (l : List Char) :
    pctDecode (l.flatMap encChar) = some (l.flatMap fun c => utf8Bytes c.toNat) := by
  induction l with
  | nil => rfl
  | cons c t ih =>
    rw [List.flatMap_cons, List.flatMap_cons, pct_encChar c _, ih]
    rfl

/-- A strict step from the initial state is a start step. -/
theorem u8step_start (out : List Char) (b : Nat) :
    u8StepStrict (some (out, u8Init)) b = u8StartStrict out b := rfl

/-- A strict step on a valid continuation byte. -/
theorem u8step_cont (out : List Char) (st : U8) (b : Nat)
    (hne : ¬(st.bytesNeeded = 0)) (hr : st.lower ≤ b ∧ b ≤ st.upper) :
    u8StepStrict (some (out, st)) b =
      if st.bytesSeen + 1 = st.bytesNeeded then
        some (Char.ofNat (st.cp * 64 + b % 64) :: out, u8Init)
      else some (out, ⟨st.cp * 64 + b % 64, st.bytesNeeded, st.bytesSeen + 1, 0x80, 0xBF⟩) := by
  unfold u8StepStrict
  simp [hne, hr]

/-- Folding the strict UTF-8 decoder over the encoding of one scalar value
emits exactly that character and returns to the initial state. -/
theorem u8fold_enc (c : Char) (out : List Char) :
    List.foldl u8StepStrict (some (out, u8Init)) (utf8Bytes c.toNat) =
      some (c :: out, u8Init) := by
  have hofn := Char.ofNat_toNat c
  have hval := charToNatValid c
  set n := c.toNat with hn
  rcases Nat.lt_or_ge n 0x80 with h1 | h1
  · rw [show utf8Bytes n = [n] from by unfold utf8Bytes; rw [if_pos h1]]
    simp only [List.foldl_cons, List.foldl_nil, u8step_start]
    unfold u8StartStrict
    rw [if_pos h1, hofn]
  · rcases Nat.lt_or_ge n 0x800 with h2 | h2
    · rw [show utf8Bytes n = [0xC0 + n / 64, 0x80 + n % 64] from by
        unfold utf8Bytes; rw [if_neg (by omega), if_pos h2]]
      simp only [List.foldl_cons, List.foldl_nil, u8step_start]
      rw [show u8StartStrict out (0xC0 + n / 64) =
          some (out, ⟨(0xC0 + n / 64) % 32, 1, 0, 0x80, 0xBF⟩) from by
        unfold u8StartStrict; rw [if_neg (by omega), if_pos (by omega)]]
      rw [u8step_cont _ _ _ (by simp) (by constructor <;> simp <;> omega)]
      have hcp : (0xC0 + n / 64) % 32 * 64 + (0x80 + n % 64) % 64 = n := by omega
      rw [hcp, hofn]
      simp
    · rcases Nat.lt_or_ge n 0x10000 with h3 | h3
      · rw [show utf8Bytes n = [0xE0 + n / 4096, 0x80 + n / 64 % 64, 0x80 + n % 64] from by
          unfold utf8Bytes; rw [if_neg (by omega), if_neg (by omega), if_pos h3]]
        simp only [List.foldl_cons, List.foldl_nil, u8step_start]
        rw [show u8StartStrict out (0xE0 + n / 4096) =
            some (out, ⟨(0xE0 + n / 4096) % 16, 2, 0,
              if 0xE0 + n / 4096 = 0xE0 then 0xA0 else 0x80,
              if 0xE0 + n / 4096 = 0xED then 0x9F else 0xBF⟩) from by
          unfold u8StartStrict; rw [if_neg (by omega), if_neg (by omega), if_pos (by omega)]]
        rw [u8step_cont _ _ _ (by simp) (by
          constructor <;> simp only <;> split_ifs <;> omega)]
        simp only [show ¬((0 : Nat) + 1 = 2) from by omega, if_false]
        rw [u8step_cont _ _ _ (by simp) (by constructor <;> simp <;> omega)]
        have hcp : ((0xE0 + n / 4096) % 16 * 64 + (0x80 + n / 64 % 64) % 64) * 64 +
            (0x80 + n % 64) % 64 = n := by omega
        rw [hcp, hofn]
        simp
      · rw [show utf8Bytes n =
            [0xF0 + n / 262144, 0x80 + n / 4096 % 64, 0x80 + n / 64 % 64, 0x80 + n % 64] from by
          unfold utf8Bytes; rw [if_neg (by omega), if_neg (by omega), if_neg (by omega)]]
        simp only [List.foldl_cons, List.foldl_nil, u8step_start]
        have hlt : n < 0x110000 := by omega
        rw [show u8StartStrict out (0xF0 + n / 262144) =
            some (out, ⟨(0xF0 + n / 262144) % 8, 3, 0,
              if 0xF0 + n / 262144 = 0xF0 then 0x90 else 0x80,
              if 0xF0 + n / 262144 = 0xF4 then 0x8F else 0xBF⟩) from by
          unfold u8StartStrict; rw [if_neg (by omega), if_neg (by omega), if_neg (by omega),
            if_pos (by omega)]]
        rw [u8step_cont _ _ _ (by simp) (by
          constructor <;> simp only <;> split_ifs <;> omega)]
        simp only [show ¬((0 : Nat) + 1 = 3) from by omega, if_false]
        rw [u8step_cont _ _ _ (by simp) (by constructor <;> simp <;> omega)]
        simp only [show ¬((1 : Nat) + 1 = 3) from by omega, if_false]
        rw [u8step_cont _ _ _ (by simp) (by constructor <;> simp <;> omega)]
        have hcp : (((0xF0 + n / 262144) % 8 * 64 + (0x80 + n / 4096 % 64) % 64) * 64 +
            (0x80 + n / 64 % 64) % 64) * 64 + (0x80 + n % 64) % 64 = n := by omega
        rw [hcp, hofn]
        simp

/-- Folding the strict decoder over a whole encoded string. -/
theorem utf8fold_list (l : List Char) :
    ∀ out, List.foldl u8StepStrict (some (out, u8Init)) (l.flatMap fun c => utf8Bytes c.toNat) =
      some (l.reverse ++ out, u8Init) := by
  induction l with
  | nil => intro out; rfl
  | cons c t ih =>
    intro out
    rw [List.flatMap_cons, List.foldl_append, u8fold_enc, ih (c :: out)]
    simp

/-- Strict UTF-8 decoding inverts UTF-8 encoding. -/
theorem utf8DecodeStrict_enc (l : List Char) :
    utf8DecodeStrict (l.flatMap fun c => utf8Bytes c.toNat) = some l := by
  unfold utf8DecodeStrict
  rw [utf8fold_list l []]
  simp [u8Init]

/-- A constructed string's data is its char list (η for `String`). -/
theorem stringEta (s : String) : (⟨s.data⟩ : String) = s := by cases s; rfl

/-- `decodeURIComponent` inverts `encodeURIComponent`. -/
theorem decode_encode (s : String) : decodeURIComponent (encodeURIComponent s) = some s := by
  unfold decodeURIComponent encodeURIComponent
  rw [show (⟨s.data.flatMap encChar⟩ : String).data = s.data.flatMap encChar from rfl]
  rw [pct_encode_list]
  simp only [Option.some_bind]
  rw [utf8DecodeStrict_enc]
  simp only [Option.map_some']

/-- `afterQMark` jumps over a `?`-free head. -/
theorem afterQMark_append (w rest : List Char) (h : '?' ∉ w) :
    afterQMark (w ++ '?' :: rest) = some rest := by
  induction w with
  | nil => simp [afterQMark]
  | cons c t ih =>
    have hc : ¬(c = '?') := fun he => h (he ▸ List.mem_cons_self c t)
    simp only [List.cons_append, afterQMark, hc, if_false]
    exact ih fun hm => h (List.mem_cons_of_mem _ hm)

/-- No character produced by `encChar` is an ampersand. -/
theorem encChar_no_amp (c : Char) : ∀ x ∈ encChar c, ¬(x = '&') := by
  intro x hx
  unfold encChar at hx
  by_cases h : isUriUnreserved c = true
  · rw [if_pos h] at hx
    simp only [List.mem_singleton] at hx
    subst hx
    intro he
    rw [he] at h
    exact absurd h (by decide)
  · rw [if_neg h] at hx
    simp only [List.mem_flatMap] at hx
    obtain ⟨b, hb, hxb⟩ := hx
    have hb' : b < 256 := utf8Bytes_lt_256 _ (charToNatLt c) b hb
    have h16 : ∀ d < 16, ¬(hexDigitUpper d = '&') := by decide
    unfold escByte at hxb
    simp only [List.mem_cons, List.not_mem_nil, or_false] at hxb
    rcases hxb with rfl | rfl | rfl
    · decide
    · exact h16 _ (by omega)
    · exact h16 _ (by omega)

/-- `findUrlVal` on a query whose first segment is `url=<E>`. -/
theorem findUrlVal_eq (E R : List Char) (hE : ∀ x ∈ E, ¬(x = '&')) :
    findUrlVal ("url=".data ++ E ++ '&' :: R) = some E := by
  have hpos : ∀ a ∈ "url=".data ++ E, (a != '&') = true := by
    intro a ha
    rw [List.mem_append] at ha
    rcases ha with ha | ha
    · exact (by decide : ∀ x ∈ "url=".data, (x != '&') = true) a ha
    · simp only [bne_iff_ne, ne_eq]
      exact hE a ha
  have hTW : (("url=".data ++ E ++ '&' :: R).takeWhile fun c => c != '&') =
      "url=".data ++ E := by
    rw [List.takeWhile_append_of_pos hpos]
    simp [List.takeWhile_cons]
  rw [findUrlVal]
  simp only [hTW]
  rw [if_pos (by rw [List.isPrefixOf_iff_prefix]; exact List.prefix_append _ _)]
  rw [List.drop_left' (by decide)]

/-! ## Claim C9 -/

/-- C9: rewriting a playlist line holding an already-absolute URI (an
`http://` or `https://` URL) and then URL-decoding the `url` query
parameter of the proxied URL recovers exactly the original URI.  The
worker URL (origin + pathname) contains no `?`, which the hypothesis
records. -/
theorem c9_url_param_roundtrip (url basePath workerUrl targetReferer line : String)
    (habs : jsStartsWith line "http://" = true ∨ jsStartsWith line "https://" = true)
    (hw : '?' ∉ workerUrl.data) :
    (getUrlParam (proxyLine url basePath workerUrl targetReferer line)).bind
      decodeURIComponent = some line := by
  have hhttp : jsStartsWith line "http" = true := by
    unfold jsStartsWith at habs ⊢
    rw [List.isPrefixOf_iff_prefix]
    rcases habs with h | h <;> rw [List.isPrefixOf_iff_prefix] at h
    · exact List.IsPrefix.trans ⟨[':', '/', '/'], rfl⟩ h
    · exact List.IsPrefix.trans ⟨['s', ':', '/', '/'], rfl⟩ h
  have hres : resolveLine url basePath line = line := by
    unfold resolveLine
    rw [hhttp]
    rfl
  unfold proxyLine
  rw [hres]
  unfold getUrlParam
  have hdata : (workerUrl ++ "?url=" ++ encodeURIComponent line ++ "&referer=" ++
      encodeURIComponent targetReferer).data =
      workerUrl.data ++ '?' :: ("url=".data ++ (encodeURIComponent line).data ++
        '&' :: ("referer=".data ++ (encodeURIComponent targetReferer).data)) := by
    simp only [String.data_append, List.append_assoc]
    rfl
  rw [hdata, afterQMark_append _ _ hw]
  have hamp : ∀ x ∈ (encodeURIComponent line).data, ¬(x = '&') := by
    intro x hx
    rw [show (encodeURIComponent line).data = line.data.flatMap encChar from rfl] at hx
    obtain ⟨c, _, hxc⟩ := List.mem_flatMap.mp hx
    exact encChar_no_amp c x hxc
  simp only [Option.some_bind]
  rw [findUrlVal_eq _ _ hamp]
  simp only [Option.map_some', Option.some_bind]
  rw [stringEta]
  exact decode_encode line

/-- Witness for C9 at a concrete absolute segment URI. -/
theorem c9_witness :
    (getUrlParam (proxyLine "https://cdn.example/show/index.m3u8" "https://cdn.example/show/"
      "https://worker.dev/proxy" "https://megacloud.tv/" "https://cdn.example/seg/1.ts")).bind
      decodeURIComponent = some "https://cdn.example/seg/1.ts" :=
  c9_url_param_roundtrip "https://cdn.example/show/index.m3u8" "https://cdn.example/show/"
    "https://worker.dev/proxy" "https://megacloud.tv/" "https://cdn.example/seg/1.ts"
    (Or.inr (by decide)) (by decide)
